import Mathlib

/-!
Shallow embedding of the `ols-demo` core (src/ols-demo/utils/math.ts and the
point-generation / simulation-driver parts of src/ols-demo/App.tsx), together
with theorems settling the specification claims about it.

Numbers: the JavaScript source computes with IEEE doubles; the embedding uses
exact arithmetic (`ℚ` for quantities that are rational-valued on rational
inputs, `ℝ` where the source applies `Math.sqrt` / `Math.log` / `Math.cos`).
The 32-bit wrapping integer steps of the seeded generator are modelled on `ℕ`
with explicit reduction modulo 2^32, which agrees with the JavaScript
`Math.imul` / `^` / `>>>` / `|` coercions on the underlying 32-bit patterns.
-/

namespace OlsDemo

/-- JavaScript `ToUint32` applied to an exactly represented integer:
the 32-bit pattern of `z`, as a natural number below 2^32. -/
def toU32 (z : ℤ) : ℕ := (z % 4294967296).toNat

/-- JavaScript `Math.imul`: the low 32 bits of the product of two 32-bit
patterns. -/
def imul (a b : ℕ) : ℕ := a * b % 4294967296

/-- The integer core of `seededRandom` (math.ts lines 10-13): the Mulberry32
style avalanche of `seed + index * 0x6D2B79F5`, producing the 32-bit unsigned
value that line 13 divides by 2^32.  `^^^`, `>>>`, `|||` act on the 32-bit
patterns exactly as the JavaScript `^`, `>>>`, `|` do. -/
def hashVal (seed index : ℤ) : ℕ :=
  let t0 := toU32 (seed + index * 0x6D2B79F5)
  let t1 := imul (t0 ^^^ (t0 >>> 15)) (t0 ||| 1)
  let t2 := t1 ^^^ ((t1 + imul (t1 ^^^ (t1 >>> 7)) (t1 ||| 61)) % 4294967296)
  t2 ^^^ (t2 >>> 14)

/-- Model of `seededRandom` (math.ts lines 9-14): the 32-bit hash value divided by
4294967296, as an exact rational. -/
def seededRandom (seed index : ℤ) : ℚ :=
  (hashVal seed index : ℚ) / 4294967296

/-- The body of the zero-rejection `while` loops in `randomNormal`
(math.ts lines 23-24).  The loop `while (u === 0) u = seededRandom(seed, i)`
re-evaluates the same pure call every iteration, so it terminates (with that
value) exactly when the value is nonzero, and runs forever otherwise;
divergence is modelled as `none`. -/
def rejectZero (q : ℚ) : Option ℚ := if q = 0 then none else some q

/-- Model of `randomNormal` (math.ts lines 19-27): Box-Muller transform on two seeded
uniform values, `none` when one of the rejection loops diverges. -/
noncomputable def randomNormal (mean stdDev : ℝ) (seed index : ℤ) :
    Option ℝ := do
  let u ← rejectZero (seededRandom seed (index * 2))
  let v ← rejectZero (seededRandom seed (index * 2 + 1))
  let z := Real.sqrt (-2 * Real.log (u : ℝ)) * Real.cos (2 * Real.pi * (v : ℝ))
  pure (mean + z * stdDev)

/-- Model of `DataPoint` (types.ts lines 1-5) as consumed by `calculateOLS`;
coordinates are modelled as exact rationals. -/
structure DataPoint where
  id : ℕ
  x : ℚ
  y : ℚ
deriving DecidableEq

/-- Model of `OLSResult` (types.ts lines 19-24).  `slopeStdErr` is real because the
source computes it with `Math.sqrt`. -/
structure OLSResult where
  slope : ℚ
  intercept : ℚ
  rSquared : ℚ
  slopeStdErr : ℝ

/-- Model of `const n = data.length` (math.ts line 33), as a rational. -/
def n (data : List DataPoint) : ℚ := data.length

/-- Accumulated `sumX` (math.ts lines 39, 47). -/
def sumX (data : List DataPoint) : ℚ := (data.map (fun p => p.x)).sum

/-- Accumulated `sumY` (math.ts lines 40, 48). -/
def sumY (data : List DataPoint) : ℚ := (data.map (fun p => p.y)).sum

/-- Accumulated `sumXY` (math.ts lines 41, 49). -/
def sumXY (data : List DataPoint) : ℚ := (data.map (fun p => p.x * p.y)).sum

/-- Accumulated `sumXX` (math.ts lines 42, 50). -/
def sumXX (data : List DataPoint) : ℚ := (data.map (fun p => p.x * p.x)).sum

/-- Accumulated `sumYY` (math.ts lines 43, 51); computed by the source loop
but never used afterwards. -/
def sumYY (data : List DataPoint) : ℚ := (data.map (fun p => p.y * p.y)).sum

/-- Model of `denominator` (math.ts line 54). -/
def denominator (data : List DataPoint) : ℚ :=
  n data * sumXX data - sumX data * sumX data

/-- Model of `slope` (math.ts line 59); meaningful on the branch where
`denominator ≠ 0`. -/
def slope (data : List DataPoint) : ℚ :=
  (n data * sumXY data - sumX data * sumY data) / denominator data

/-- Model of `intercept` (math.ts line 60). -/
def intercept (data : List DataPoint) : ℚ :=
  (sumY data - slope data * sumX data) / n data

/-- Model of `meanY` (math.ts line 63). -/
def meanY (data : List DataPoint) : ℚ := sumY data / n data

/-- Accumulated `ssTot` (math.ts lines 64, 70). -/
def ssTot (data : List DataPoint) : ℚ :=
  (data.map (fun p => (p.y - meanY data) ^ 2)).sum

/-- Accumulated `ssRes` (math.ts lines 65, 69, 71): squared deviation of `y`
from `predictedY = slope * x + intercept`. -/
def ssRes (data : List DataPoint) : ℚ :=
  (data.map (fun p => (p.y - (slope data * p.x + intercept data)) ^ 2)).sum

/-- Model of `rSquared` (math.ts line 74). -/
def rSquared (data : List DataPoint) : ℚ :=
  if ssTot data = 0 then 0 else 1 - ssRes data / ssTot data

/-- Model of `sxx` (math.ts line 78). -/
def sxx (data : List DataPoint) : ℚ :=
  sumXX data - sumX data * sumX data / n data

/-- Model of `varError` (math.ts line 81). -/
def varError (data : List DataPoint) : ℚ := ssRes data / (n data - 2)

/-- Model of `slopeStdErr` (math.ts line 84). -/
noncomputable def slopeStdErr (data : List DataPoint) : ℝ :=
  if sxx data > 0 then Real.sqrt ((varError data / sxx data : ℚ)) else 0

/-- Model of `calculateOLS` (math.ts lines 32-92).  In exact arithmetic the final
`Number.isNaN` coercions of lines 87-90 are identity maps, so the function
returns the branch values directly. -/
noncomputable def calculateOLS (data : List DataPoint) : OLSResult :=
  if data.length < 3 then ⟨0, 0, 0, 0⟩
  else if denominator data = 0 then ⟨0, 0, 0, 0⟩
  else ⟨slope data, intercept data, rSquared data, slopeStdErr data⟩

/-- Model of the `samplingMode` alternatives (types.ts line 15). -/
inductive SamplingMode
  | cumulative
  | independent
deriving DecidableEq

/-- Model of `SimulationParams` (types.ts lines 7-17).  Model parameters are real;
sizes are naturals; the seed is an integer. -/
structure SimulationParams where
  trueSlope : ℝ
  trueIntercept : ℝ
  noiseLevel : ℝ
  batchSize : ℕ
  speed : ℕ
  minSampleSize : ℕ
  maxSampleSize : ℕ
  samplingMode : SamplingMode
  seed : ℤ

/-- The x-coordinate of the generated point with a given id
(App.tsx lines 48-49): `seededRandom(seed, id * 100) * 10`. -/
def xCoord (seed : ℤ) (id : ℕ) : ℚ := seededRandom seed (id * 100) * 10

/-- A point as produced by `generatePoints` (App.tsx lines 39-59): the
x-coordinate is an exact rational, the y-coordinate is real because the
Box-Muller error term involves `sqrt`, `log` and `cos`. -/
structure GenPoint where
  id : ℕ
  x : ℚ
  y : ℝ

/-- One iteration of the loop body of `generatePoints`
(App.tsx lines 41-57): `none` when the error sampler diverges. -/
noncomputable def generatePoint (p : SimulationParams) (id : ℕ) :
    Option GenPoint :=
  (randomNormal 0 p.noiseLevel p.seed (id * 100 + 1)).map
    (fun error => ⟨id, xCoord p.seed id,
      p.trueIntercept + p.trueSlope * (xCoord p.seed id : ℝ) + error⟩)

/-- The loop of `generatePoints`, generating `count` points with consecutive
ids starting at the given id. -/
noncomputable def generatePointsFrom (p : SimulationParams) :
    ℕ → ℕ → Option (List GenPoint)
  | _, 0 => some []
  | id0, k + 1 => do
    let pt ← generatePoint p id0
    let rest ← generatePointsFrom p (id0 + 1) k
    pure (pt :: rest)

/-- Model of `generatePoints` (App.tsx lines 39-59): ids are
`startId, …, startId + count - 1`. -/
noncomputable def generatePoints (count startId : ℕ) (p : SimulationParams) :
    Option (List GenPoint) :=
  generatePointsFrom p startId count

/-- Model of `nextN` of a simulation tick (App.tsx line 70). -/
def nextSampleSize (currentN batchSize maxSampleSize : ℕ) : ℕ :=
  min (currentN + batchSize) maxSampleSize

/-- The start id used by an independent-resampling tick with target sample
size `nextN` (App.tsx line 88): `nextN * 100000`. -/
def tickStartId (nextN : ℕ) : ℕ := nextN * 100000

/-- The initial parameter values of the driver (App.tsx lines 11-21). -/
noncomputable def defaultParams : SimulationParams :=
  ⟨1.5, 2.0, 2.0, 1, 50, 10, 2000, SamplingMode.cumulative, 42⟩

/-- The spec's known closed-form example points (1,2), (2,3), (3,5), (4,7). -/
def examplePoints : List DataPoint :=
  [⟨0, 1, 2⟩, ⟨1, 2, 3⟩, ⟨2, 3, 5⟩, ⟨3, 4, 7⟩]

/-- Three collinear points on the horizontal line y = 1 (true slope 0). -/
def flatLinePoints : List DataPoint := [⟨0, 0, 1⟩, ⟨1, 1, 1⟩, ⟨2, 2, 1⟩]

/-- Three collinear points on the line y = 2 + 3x. -/
def steepLinePoints : List DataPoint := [⟨0, 0, 2⟩, ⟨1, 1, 5⟩, ⟨2, 2, 8⟩]

/-- Three points sharing the x-value 1. -/
def constantXPoints : List DataPoint := [⟨0, 1, 1⟩, ⟨1, 1, 2⟩, ⟨2, 1, 3⟩]

/-- Three generic points in non-degenerate position. -/
def witnessPoints : List DataPoint := [⟨0, 0, 0⟩, ⟨1, 1, 1⟩, ⟨2, 2, 3⟩]

/-! ## Bounds on the seeded generator -/

theorem toU32_lt (z : ℤ) : toU32 z < 4294967296 := by
  unfold toU32
  have h1 : z % 4294967296 < 4294967296 := Int.emod_lt_of_pos z (by norm_num)
  have h2 : 0 ≤ z % 4294967296 := Int.emod_nonneg z (by norm_num)
  omega

theorem imul_lt (a b : ℕ) : imul a b < 4294967296 :=
  Nat.mod_lt _ (by norm_num)

theorem xor_lt_u32 {a b : ℕ} (ha : a < 4294967296) (hb : b < 4294967296) :
    a ^^^ b < 4294967296 := by
  have h : a ^^^ b < 2 ^ 32 :=
    Nat.bitwise_lt (by norm_num at ha ⊢; exact ha) (by norm_num at hb ⊢; exact hb)
  norm_num at h
  exact h

theorem hashVal_lt (seed index : ℤ) : hashVal seed index < 4294967296 := by
  unfold hashVal
  set t0 := toU32 (seed + index * 0x6D2B79F5) with ht0
  set t1 := imul (t0 ^^^ (t0 >>> 15)) (t0 ||| 1) with ht1
  set t2 := t1 ^^^ ((t1 + imul (t1 ^^^ (t1 >>> 7)) (t1 ||| 61)) % 4294967296)
    with ht2
  have h1 : t1 < 4294967296 := imul_lt _ _
  have h2 : t2 < 4294967296 := xor_lt_u32 h1 (Nat.mod_lt _ (by norm_num))
  have h3 : t2 >>> 14 ≤ t2 := by
    rw [Nat.shiftRight_eq_div_pow]
    exact Nat.div_le_self _ _
  exact xor_lt_u32 h2 (lt_of_le_of_lt h3 h2)

theorem seededRandom_nonneg (seed index : ℤ) : 0 ≤ seededRandom seed index := by
  unfold seededRandom
  positivity

theorem seededRandom_lt_one (seed index : ℤ) : seededRandom seed index < 1 := by
  unfold seededRandom
  rw [div_lt_one (by norm_num)]
  exact_mod_cast hashVal_lt seed index

theorem seededRandom_le (seed index : ℤ) :
    seededRandom seed index ≤ 4294967295 / 4294967296 := by
  unfold seededRandom
  rw [div_le_div_iff_of_pos_right (by norm_num)]
  have h := hashVal_lt seed index
  exact_mod_cast Nat.lt_succ_iff.mp (by exact_mod_cast h)

/-! ## List-sum algebra -/

theorem sum_map_sq_sub (l : List ℚ) (c : ℚ) :
    (l.map (fun x => (x - c) ^ 2)).sum =
      (l.map (fun x => x * x)).sum - 2 * c * l.sum + l.length * c ^ 2 := by
  induction l with
  | nil => simp
  | cons a t ih =>
    simp only [List.map_cons, List.sum_cons, List.length_cons, ih,
      Nat.cast_add, Nat.cast_one]
    ring

theorem sum_map_pos {α : Type} (l : List α) (f : α → ℚ)
    (h0 : ∀ a ∈ l, 0 ≤ f a) {e : α} (he : e ∈ l) (hpos : 0 < f e) :
    0 < (l.map f).sum := by
  induction l with
  | nil => cases he
  | cons a t ih =>
    simp only [List.map_cons, List.sum_cons]
    rcases List.mem_cons.mp he with rfl | hmem
    · have ht : 0 ≤ (t.map f).sum := by
        apply List.sum_nonneg
        intro x hx
        obtain ⟨b, hb, rfl⟩ := List.mem_map.mp hx
        exact h0 b (List.mem_cons_of_mem _ hb)
      linarith
    · have ha : 0 ≤ f a := h0 a (List.mem_cons_self _ _)
      have ht := ih (fun b hb => h0 b (List.mem_cons_of_mem _ hb)) hmem
      linarith

theorem sumY_line (data : List DataPoint) (a b : ℚ)
    (h : ∀ pt ∈ data, pt.y = a + b * pt.x) :
    sumY data = a * n data + b * sumX data := by
  induction data with
  | nil => simp [sumY, n, sumX]
  | cons p t ih =>
    have hp := h p (List.mem_cons_self _ _)
    have ht := ih (fun q hq => h q (List.mem_cons_of_mem _ hq))
    simp only [sumY, n, sumX, List.map_cons, List.sum_cons, List.length_cons,
      Nat.cast_add, Nat.cast_one] at ht ⊢
    rw [hp, ht]
    ring

theorem sumXY_line (data : List DataPoint) (a b : ℚ)
    (h : ∀ pt ∈ data, pt.y = a + b * pt.x) :
    sumXY data = a * sumX data + b * sumXX data := by
  induction data with
  | nil => simp [sumXY, sumX, sumXX]
  | cons p t ih =>
    have hp := h p (List.mem_cons_self _ _)
    have ht := ih (fun q hq => h q (List.mem_cons_of_mem _ hq))
    simp only [sumXY, sumX, sumXX, List.map_cons, List.sum_cons] at ht ⊢
    rw [hp, ht]
    ring

theorem sums_constX (data : List DataPoint) (c : ℚ)
    (h : ∀ pt ∈ data, pt.x = c) :
    sumX data = n data * c ∧ sumXX data = n data * (c * c) := by
  induction data with
  | nil => simp [sumX, sumXX, n]
  | cons p t ih =>
    have hp := h p (List.mem_cons_self _ _)
    have ht := ih (fun q hq => h q (List.mem_cons_of_mem _ hq))
    simp only [sumX, sumXX, n, List.map_cons, List.sum_cons, List.length_cons,
      Nat.cast_add, Nat.cast_one] at ht ⊢
    constructor
    · rw [hp, ht.1]; ring
    · rw [hp, ht.2]; ring

/-! ## Non-degeneracy of the design -/

theorem denominator_eq (data : List DataPoint) (hn : n data ≠ 0) :
    denominator data =
      n data * (data.map (fun pt => (pt.x - sumX data / n data) ^ 2)).sum := by
  have h := sum_map_sq_sub (data.map (fun p => p.x)) (sumX data / n data)
  rw [List.map_map] at h
  have hcomp :
      ((fun x => (x - sumX data / n data) ^ 2) ∘ fun p : DataPoint => p.x) =
        fun pt : DataPoint => (pt.x - sumX data / n data) ^ 2 := rfl
  have hlen : ((data.map (fun p : DataPoint => p.x)).length : ℚ) = n data := by
    simp [n]
  rw [hcomp, hlen] at h
  have hxx : ((data.map (fun p : DataPoint => p.x)).map (fun x => x * x)).sum
      = sumXX data := by
    rw [List.map_map]; rfl
  rw [hxx] at h
  rw [h]
  unfold denominator sumX
  field_simp
  ring

theorem denominator_pos (data : List DataPoint)
    (h1 : 1 ≤ data.length)
    (hx : ∃ pt ∈ data, ∃ qt ∈ data, pt.x ≠ qt.x) :
    0 < denominator data := by
  have hn : (0 : ℚ) < n data := by
    unfold n
    exact_mod_cast Nat.lt_of_lt_of_le Nat.zero_lt_one h1
  obtain ⟨p, hp, q, hq, hpq⟩ := hx
  have key : ∃ e ∈ data, e.x ≠ sumX data / n data := by
    by_cases hpm : p.x = sumX data / n data
    · exact ⟨q, hq, fun hqq => hpq (hpm.trans hqq.symm)⟩
    · exact ⟨p, hp, hpm⟩
  obtain ⟨e, he, hem⟩ := key
  have hsum : 0 < (data.map (fun pt => (pt.x - sumX data / n data) ^ 2)).sum := by
    apply sum_map_pos data _ (fun t _ => sq_nonneg _) he
    exact lt_of_le_of_ne (sq_nonneg _)
      (Ne.symm (pow_ne_zero 2 (sub_ne_zero.mpr hem)))
  rw [denominator_eq data hn.ne']
  exact mul_pos hn hsum

/-- On a non-degenerate input `calculateOLS` takes the main branch. -/
theorem calculateOLS_of_nondegenerate (data : List DataPoint)
    (h3 : 3 ≤ data.length) (hd : denominator data ≠ 0) :
    calculateOLS data =
      ⟨slope data, intercept data, rSquared data, slopeStdErr data⟩ := by
  unfold calculateOLS
  rw [if_neg (by omega), if_neg hd]

/-! ## Claim theorems -/

/-- Claim C1: for every list of at least 3 data points whose x-values are not
all identical, `calculateOLS` returns
`slope = (n·Σxy − Σx·Σy) / (n·Σx² − (Σx)²)`,
`intercept = (Σy − slope·Σx) / n`,
`rSquared = 1 − ssRes/ssTot` when `ssTot ≠ 0` (else 0), and
`slopeStdErr = sqrt((ssRes/(n−2)) / Sxx)` when `Sxx = Σx² − (Σx)²/n > 0`
(else 0), where `ssTot` is the sum of squared deviations of y from its mean
and `ssRes` is the sum of squared deviations of y from the fitted line. -/
theorem claim_C1_ols_formulas (data : List DataPoint)
    (h3 : 3 ≤ data.length)
    (hx : ∃ pt ∈ data, ∃ qt ∈ data, pt.x ≠ qt.x) :
    (calculateOLS data).slope =
      (n data * sumXY data - sumX data * sumY data) /
        (n data * sumXX data - sumX data * sumX data) ∧
    (calculateOLS data).intercept =
      (sumY data - (calculateOLS data).slope * sumX data) / n data ∧
    (calculateOLS data).rSquared =
      (if (data.map (fun pt => (pt.y - sumY data / n data) ^ 2)).sum = 0 then 0
       else 1 -
         (data.map (fun pt =>
           (pt.y - ((calculateOLS data).slope * pt.x +
             (calculateOLS data).intercept)) ^ 2)).sum /
         (data.map (fun pt => (pt.y - sumY data / n data) ^ 2)).sum) ∧
    (calculateOLS data).slopeStdErr =
      (if sumXX data - sumX data * sumX data / n data > 0
       then Real.sqrt
         (((data.map (fun pt =>
             (pt.y - ((calculateOLS data).slope * pt.x +
               (calculateOLS data).intercept)) ^ 2)).sum /
           (n data - 2) /
           (sumXX data - sumX data * sumX data / n data) : ℚ))
       else 0) := by
  have hd : denominator data ≠ 0 := (denominator_pos data (by omega) hx).ne'
  rw [calculateOLS_of_nondegenerate data h3 hd]
  exact ⟨rfl, rfl, rfl, rfl⟩

/-- Witness for claim C1 at a concrete non-degenerate input. -/
theorem claim_C1_witness :
    3 ≤ witnessPoints.length ∧
    (calculateOLS witnessPoints).slope =
      (n witnessPoints * sumXY witnessPoints -
        sumX witnessPoints * sumY witnessPoints) /
      (n witnessPoints * sumXX witnessPoints -
        sumX witnessPoints * sumX witnessPoints) :=
  ⟨by decide,
   (claim_C1_ols_formulas witnessPoints (by decide)
     ⟨⟨0, 0, 0⟩, by simp [witnessPoints],
      ⟨1, 1, 1⟩, by simp [witnessPoints], by norm_num⟩).1⟩

/-- Claim C2: `calculateOLS` applied to the empty list, to any single point or
to any two points returns the all-zero result, and `calculateOLS` applied to
any list of points in which every x-value is identical also returns the
all-zero result. -/
theorem claim_C2_degenerate (data : List DataPoint)
    (h : data.length ≤ 2 ∨ ∀ pt ∈ data, ∀ qt ∈ data, pt.x = qt.x) :
    calculateOLS data = ⟨0, 0, 0, 0⟩ := by
  rcases h with hlen | hsame
  · unfold calculateOLS
    rw [if_pos (by omega)]
  · by_cases hlt : data.length < 3
    · unfold calculateOLS
      rw [if_pos hlt]
    · match data, hsame, hlt with
      | p :: t, hsame, hlt =>
        set data := p :: t with hdata
        have hall : ∀ qt ∈ data, qt.x = p.x :=
          fun qt hq => hsame qt hq p (List.mem_cons_self _ _)
        have hc := sums_constX data p.x hall
        have hd0 : denominator data = 0 := by
          unfold denominator
          rw [hc.1, hc.2]
          ring
        unfold calculateOLS
        rw [if_neg hlt, if_pos hd0]

/-- Witness for claim C2 at a concrete input whose x-values are identical. -/
theorem claim_C2_witness :
    (constantXPoints.length ≤ 2 ∨
      ∀ pt ∈ constantXPoints, ∀ qt ∈ constantXPoints, pt.x = qt.x) ∧
    calculateOLS constantXPoints = ⟨0, 0, 0, 0⟩ :=
  ⟨Or.inr (by simp [constantXPoints]),
   claim_C2_degenerate constantXPoints (Or.inr (by simp [constantXPoints]))⟩

/-- Counterexample to claim C6 as stated: on the example points
(1,2), (2,3), (3,5), (4,7) the code returns intercept 0, not -0.5. -/
theorem claim_C6_counterexample :
    ¬ ((calculateOLS examplePoints).slope = 17 / 10 ∧
       (calculateOLS examplePoints).intercept = -(1 / 2)) := by
  have hd : denominator examplePoints ≠ 0 := by
    norm_num [denominator, n, sumXX, sumX, examplePoints]
  rw [calculateOLS_of_nondegenerate examplePoints (by decide) hd]
  rintro ⟨-, h2⟩
  rw [intercept, slope] at h2
  norm_num [denominator, n, sumXX, sumXY, sumX, sumY, examplePoints] at h2

/-- Claim C6 amended: `calculateOLS` on exactly the points
(1,2), (2,3), (3,5), (4,7) yields slope 1.7 and intercept 0, the exact
least-squares values for this example. -/
theorem claim_C6_example_values :
    (calculateOLS examplePoints).slope = 17 / 10 ∧
    (calculateOLS examplePoints).intercept = 0 := by
  have hd : denominator examplePoints ≠ 0 := by
    norm_num [denominator, n, sumXX, sumX, examplePoints]
  rw [calculateOLS_of_nondegenerate examplePoints (by decide) hd]
  constructor
  · rw [slope]
    norm_num [denominator, n, sumXX, sumXY, sumX, sumY, examplePoints]
  · rw [intercept, slope]
    norm_num [denominator, n, sumXX, sumXY, sumX, sumY, examplePoints]

/-- Counterexample to claim C3 as stated: the three points (0,1), (1,1), (2,1)
lie exactly on the line y = 1 + 0·x (trueSlope 0, trueIntercept 1), have two
distinct x-values and length 3, yet `calculateOLS` returns rSquared 0, not 1,
because all y-values are equal and `ssTot = 0`. -/
theorem claim_C3_counterexample :
    3 ≤ flatLinePoints.length ∧
    (∀ pt ∈ flatLinePoints, pt.y = 1 + 0 * pt.x) ∧
    (∃ pt ∈ flatLinePoints, ∃ qt ∈ flatLinePoints, pt.x ≠ qt.x) ∧
    (calculateOLS flatLinePoints).rSquared ≠ 1 := by
  refine ⟨by decide, by simp [flatLinePoints], ?_, ?_⟩
  · exact ⟨⟨0, 0, 1⟩, by simp [flatLinePoints],
      ⟨1, 1, 1⟩, by simp [flatLinePoints], by norm_num⟩
  · have hd : denominator flatLinePoints ≠ 0 := by
      norm_num [denominator, n, sumXX, sumX, flatLinePoints]
    rw [calculateOLS_of_nondegenerate flatLinePoints (by decide) hd]
    have h0 : ssTot flatLinePoints = 0 := by
      norm_num [ssTot, meanY, sumY, n, flatLinePoints]
    rw [rSquared, if_pos h0]
    norm_num

/-- Claim C3 amended: for every list of at least 3 points lying exactly on the
line y = trueIntercept + trueSlope·x with at least two distinct x-values,
`calculateOLS` recovers the slope and the intercept exactly, and additionally
returns rSquared = 1 provided trueSlope ≠ 0 (for trueSlope = 0 all y-values
coincide, `ssTot = 0`, and the code returns rSquared = 0 instead). -/
theorem claim_C3_exact_recovery (data : List DataPoint) (a b : ℚ)
    (h3 : 3 ≤ data.length)
    (hline : ∀ pt ∈ data, pt.y = a + b * pt.x)
    (hx : ∃ pt ∈ data, ∃ qt ∈ data, pt.x ≠ qt.x) :
    (calculateOLS data).slope = b ∧ (calculateOLS data).intercept = a ∧
      (b ≠ 0 → (calculateOLS data).rSquared = 1) := by
  have hn : (0 : ℚ) < n data := by
    unfold n
    exact_mod_cast (by omega : 0 < data.length)
  have hdpos := denominator_pos data (by omega) hx
  have hd := hdpos.ne'
  have hsY := sumY_line data a b hline
  have hsXY := sumXY_line data a b hline
  have hslope : slope data = b := by
    unfold slope
    rw [hsXY, hsY]
    have hnum : n data * (a * sumX data + b * sumXX data) -
        sumX data * (a * n data + b * sumX data) = b * denominator data := by
      unfold denominator
      ring
    rw [hnum, mul_div_assoc, div_self hd, mul_one]
  have hint : intercept data = a := by
    unfold intercept
    rw [hslope, hsY]
    field_simp
  have hres : ssRes data = 0 := by
    unfold ssRes
    simp only [hslope, hint]
    apply List.sum_eq_zero
    intro q hq
    obtain ⟨pt, hpt, rfl⟩ := List.mem_map.mp hq
    rw [hline pt hpt]
    ring
  have hmean : meanY data = a + b * (sumX data / n data) := by
    unfold meanY
    rw [hsY]
    field_simp
  rw [calculateOLS_of_nondegenerate data h3 hd]
  refine ⟨hslope, hint, fun hb => ?_⟩
  have hstot : 0 < ssTot data := by
    unfold ssTot
    obtain ⟨p, hp, q, hq, hpq⟩ := hx
    have key : ∃ e ∈ data, e.x ≠ sumX data / n data := by
      by_cases hpm : p.x = sumX data / n data
      · exact ⟨q, hq, fun hqq => hpq (hpm.trans hqq.symm)⟩
      · exact ⟨p, hp, hpm⟩
    obtain ⟨e, he, hem⟩ := key
    apply sum_map_pos data _ (fun t _ => sq_nonneg _) he
    rw [hline e he, hmean]
    have hrw : a + b * e.x - (a + b * (sumX data / n data)) =
        b * (e.x - sumX data / n data) := by ring
    rw [hrw]
    exact lt_of_le_of_ne (sq_nonneg _)
      (Ne.symm (pow_ne_zero 2
        (mul_ne_zero hb (sub_ne_zero.mpr hem))))
  show rSquared data = 1
  unfold rSquared
  rw [if_neg hstot.ne', hres, zero_div, sub_zero]

/-- Witness for the amended claim C3 at three points on the line y = 2 + 3x. -/
theorem claim_C3_witness :
    (∀ pt ∈ steepLinePoints, pt.y = 2 + 3 * pt.x) ∧
    (calculateOLS steepLinePoints).slope = 3 ∧
    (calculateOLS steepLinePoints).intercept = 2 ∧
    (calculateOLS steepLinePoints).rSquared = 1 := by
  have h := claim_C3_exact_recovery steepLinePoints 2 3 (by decide)
    (by norm_num [steepLinePoints])
    ⟨⟨0, 0, 2⟩, by simp [steepLinePoints],
     ⟨1, 1, 5⟩, by simp [steepLinePoints], by norm_num⟩
  exact ⟨by norm_num [steepLinePoints], h.1, h.2.1, h.2.2 (by norm_num)⟩

/-- Claim C4 is violated by the code: at seed 0 and index 0 the hash returns
exactly 0, so the loop `while (u === 0) u = seededRandom(seed, index * 2)` in
`randomNormal` re-evaluates the same pure zero value forever and the call
never terminates (modelled as `none`). -/
theorem claim_C4_nontermination :
    seededRandom 0 0 = 0 ∧ randomNormal 0 1 0 0 = none := by
  have h : seededRandom 0 0 = 0 := by
    simp [seededRandom, show hashVal 0 0 = 0 from by decide]
  refine ⟨h, ?_⟩
  simp [randomNormal, rejectZero, h]

/-- Claim C7: for every integer seed and every integer index,
`seededRandom` returns a value in the half-open interval [0, 1). -/
theorem claim_C7_range (seed index : ℤ) :
    0 ≤ seededRandom seed index ∧ seededRandom seed index < 1 :=
  ⟨seededRandom_nonneg seed index, seededRandom_lt_one seed index⟩

/-- Claim C8: `seededRandom` and the point generator are deterministic — two
calls with identical arguments return identical results, and since both are
modelled as pure functions of their arguments, the results cannot depend on
call order or prior invocations. -/
theorem claim_C8_determinism :
    (∀ s₁ i₁ s₂ i₂ : ℤ, s₁ = s₂ → i₁ = i₂ →
      seededRandom s₁ i₁ = seededRandom s₂ i₂) ∧
    (∀ (c₁ sid₁ c₂ sid₂ : ℕ) (p₁ p₂ : SimulationParams),
      c₁ = c₂ → sid₁ = sid₂ → p₁ = p₂ →
      generatePoints c₁ sid₁ p₁ = generatePoints c₂ sid₂ p₂) := by
  constructor
  · rintro s₁ i₁ _ _ rfl rfl
    rfl
  · rintro c₁ sid₁ _ _ p₁ _ rfl rfl rfl
    rfl

/-- Witness for claim C8 at concrete arguments. -/
theorem claim_C8_witness :
    seededRandom 42 7 = seededRandom 42 7 ∧
    generatePoints 5 0 defaultParams = generatePoints 5 0 defaultParams :=
  ⟨claim_C8_determinism.1 42 7 42 7 rfl rfl,
   claim_C8_determinism.2 5 0 5 0 defaultParams defaultParams rfl rfl rfl⟩

/-- The id of a generated point is the id the generator was called with. -/
theorem generatePoint_id (p : SimulationParams) (id : ℕ) (pt : GenPoint)
    (h : generatePoint p id = some pt) : pt.id = id := by
  unfold generatePoint at h
  cases hr : randomNormal 0 p.noiseLevel p.seed (id * 100 + 1) with
  | none => rw [hr] at h; simp at h
  | some e =>
    rw [hr] at h
    simp only [Option.map_some', Option.some.injEq] at h
    rw [← h]

/-- The ids produced by the generator loop are consecutive from the start
id. -/
theorem generatePointsFrom_ids (p : SimulationParams) :
    ∀ (count startId : ℕ) (l : List GenPoint),
      generatePointsFrom p startId count = some l →
      l.map (fun pt => pt.id) = (List.range count).map (fun i => startId + i) := by
  intro count
  induction count with
  | zero =>
    intro startId l h
    simp only [generatePointsFrom, Option.some.injEq] at h
    rw [← h]
    simp
  | succ k ih =>
    intro startId l h
    rw [generatePointsFrom] at h
    cases hpt : generatePoint p startId with
    | none => rw [hpt] at h; simp at h
    | some pt =>
      rw [hpt] at h
      cases hrest : generatePointsFrom p (startId + 1) k with
      | none => rw [hrest] at h; simp at h
      | some rest =>
        rw [hrest] at h
        simp at h
        subst h
        have hid := generatePoint_id p startId pt hpt
        have htail := ih (startId + 1) rest hrest
        have hfun : List.map (fun i => startId + 1 + i) (List.range k) =
            List.map ((fun i => startId + i) ∘ Nat.succ) (List.range k) := by
          apply List.map_congr_left
          intro i _
          simp only [Function.comp_apply]
          omega
        simp only [List.map_cons, hid, htail, List.range_succ_eq_map,
          List.map_map, Nat.add_zero, hfun]

/-- Counterexample to claim C9 as stated: for the consecutive independent-mode
tick sizes 100001 and 100002 (an increase of exactly 1) the id ranges overlap:
id 10000200000 is the last id of the first tick and the first id of the
second. -/
theorem claim_C9_counterexample :
    100001 < 100002 ∧ 100000 < 100001 ∧ 0 < 100002 ∧
    tickStartId 100001 + 100000 = tickStartId 100002 + 0 := by
  refine ⟨by norm_num, by norm_num, by norm_num, ?_⟩
  unfold tickStartId
  norm_num

/-- Claim C9 amended: an independent-mode tick with target sample size `nextN`
generates ids `nextN*100000 … nextN*100000 + nextN − 1`, and for every pair of
consecutive ticks in which `nextN` strictly increases and the earlier tick's
`nextN` is at most 100000 (which covers the documented maximum sample size of
50000) the two id ranges never overlap; without that bound consecutive ranges
can collide. -/
theorem claim_C9_tick_disjointness :
    (∀ (count startId : ℕ) (p : SimulationParams) (l : List GenPoint),
      generatePoints count startId p = some l →
      l.map (fun pt => pt.id) = (List.range count).map (fun i => startId + i)) ∧
    (∀ n₁ n₂ j₁ j₂ : ℕ, n₁ < n₂ → n₁ ≤ 100000 → j₁ < n₁ → j₂ < n₂ →
      tickStartId n₁ + j₁ ≠ tickStartId n₂ + j₂) := by
  constructor
  · intro count startId p l h
    exact generatePointsFrom_ids p count startId l h
  · intro n₁ n₂ j₁ j₂ h12 hb hj1 hj2
    unfold tickStartId
    omega

/-- Witness for the amended claim C9 at concrete inputs. -/
theorem claim_C9_witness :
    (([] : List GenPoint).map (fun pt => pt.id) =
      (List.range 0).map (fun i => 0 + i)) ∧
    tickStartId 1 + 0 ≠ tickStartId 2 + 1 :=
  ⟨claim_C9_tick_disjointness.1 0 0 defaultParams [] rfl,
   claim_C9_tick_disjointness.2 1 2 0 1 (by norm_num) (by norm_num)
     (by norm_num) (by norm_num)⟩

/-- Claim C10: for every integer seed and every point id, the generated
x-coordinate `seededRandom(seed, id*100) * 10` lies in [0, 10): it is never
exactly 10, and the largest attainable value, 10·(2³²−1)/2³², is strictly
below 10. -/
theorem claim_C10_x_range (seed : ℤ) (id : ℕ) :
    0 ≤ xCoord seed id ∧
    xCoord seed id ≤ 10 - 10 / 4294967296 ∧
    xCoord seed id < 10 := by
  have h0 := seededRandom_nonneg seed (id * 100)
  have h1 := seededRandom_le seed (id * 100)
  have h2 := seededRandom_lt_one seed (id * 100)
  unfold xCoord
  refine ⟨by positivity, ?_, ?_⟩
  · have h3 : seededRandom seed (↑(id * 100)) * 10 ≤
        4294967295 / 4294967296 * 10 := by
      exact mul_le_mul_of_nonneg_right h1 (by norm_num)
    calc seededRandom seed (↑(id * 100)) * 10 ≤ 4294967295 / 4294967296 * 10 := h3
      _ = 10 - 10 / 4294967296 := by norm_num
  · calc seededRandom seed (↑(id * 100)) * 10 < 1 * 10 :=
        mul_lt_mul_of_pos_right h2 (by norm_num)
      _ = 10 := by norm_num

end OlsDemo
